import Mathlib

/-!
Verification of the implied-volatility aggregation pipeline.

The development shallowly embeds the ingestion script
(`2_zips_to_zarrs_combined.py`) and the aggregation script
(`3_produce_iv_dataset_full.py`).  Floating-point numbers are modelled by
rationals; a pandas/NumPy NaN is modelled by `Option` with `none` standing
for NaN (so `dropna` becomes a filter on `isSome`, and the `NaN >= t`
comparison is `false`).  Calendar dates are modelled by natural numbers.
-/

/-- Fixed ordered list of target expiry horizons in days
(`TARGET_DAYS` in `3_produce_iv_dataset_full.py`). -/
def TARGET_DAYS : List ℚ := [30, 60, 90, 120, 180, 270, 360, 540, 720]

/-- Index of the first occurrence of the minimal element, the semantics of
`np.argmin` on a nonempty list (on the empty list we return 0, a case the
code never hits since `TARGET_DAYS` is nonempty). -/
def argminIdx : List ℚ → ℕ
  | [] => 0
  | [_] => 0
  | x :: y :: ys =>
    let j := argminIdx (y :: ys)
    if x ≤ (y :: ys).getD j 0 then 0 else j + 1

/-- The expiry bucketer `assign_closest_bucket`: convert years to days,
compute the absolute distance to every target, pick the argmin (first
occurrence on ties).  Returns the chosen target and its distance. -/
def assign_closest_bucket (years : ℚ) : ℚ × ℚ :=
  let days := years * 365
  let diffs := TARGET_DAYS.map (fun tgt => |days - tgt|)
  let idx := argminIdx diffs
  (TARGET_DAYS.getD idx 0, diffs.getD idx 0)

lemma argminIdx_lt_length (x : ℚ) (xs : List ℚ) :
    argminIdx (x :: xs) < (x :: xs).length := by
  induction xs generalizing x with
  | nil => simp [argminIdx]
  | cons y ys ih =>
    simp only [argminIdx]
    split
    · simp
    · have := ih y
      simpa [Nat.succ_lt_succ_iff] using this

lemma argminIdx_cons_cons (x y : ℚ) (ys : List ℚ) :
    argminIdx (x :: y :: ys) =
      if x ≤ (y :: ys).getD (argminIdx (y :: ys)) 0 then 0
      else argminIdx (y :: ys) + 1 := rfl

lemma argminIdx_le (x : ℚ) (xs : List ℚ) :
    ∀ i < (x :: xs).length,
      (x :: xs).getD (argminIdx (x :: xs)) 0 ≤ (x :: xs).getD i 0 := by
  induction xs generalizing x with
  | nil =>
    intro i hi
    have hi0 : i = 0 := by
      have h1 : i < 1 := by simpa using hi
      omega
    subst hi0
    simp [argminIdx]
  | cons y ys ih =>
    intro i hi
    rw [argminIdx_cons_cons]
    by_cases hle : x ≤ (y :: ys).getD (argminIdx (y :: ys)) 0
    · rw [if_pos hle]
      match i with
      | 0 => simp
      | k + 1 =>
        have hk : k < (y :: ys).length := by
          simpa [Nat.succ_lt_succ_iff] using hi
        have hky := ih y k hk
        calc (x :: y :: ys).getD 0 0 = x := rfl
          _ ≤ (y :: ys).getD (argminIdx (y :: ys)) 0 := hle
          _ ≤ (y :: ys).getD k 0 := hky
          _ = (x :: y :: ys).getD (k + 1) 0 := rfl
    · rw [if_neg hle]
      push_neg at hle
      match i with
      | 0 => simpa using le_of_lt hle
      | k + 1 =>
        have hk : k < (y :: ys).length := by
          simpa [Nat.succ_lt_succ_iff] using hi
        simpa using ih y k hk

lemma argminIdx_first (x : ℚ) (xs : List ℚ) :
    ∀ i < argminIdx (x :: xs),
      (x :: xs).getD (argminIdx (x :: xs)) 0 < (x :: xs).getD i 0 := by
  induction xs generalizing x with
  | nil => intro i hi; simp [argminIdx] at hi
  | cons y ys ih =>
    intro i hi
    rw [argminIdx_cons_cons] at hi ⊢
    by_cases hle : x ≤ (y :: ys).getD (argminIdx (y :: ys)) 0
    · rw [if_pos hle] at hi
      exact absurd hi (by simp)
    · rw [if_neg hle] at hi ⊢
      push_neg at hle
      match i with
      | 0 => simpa using hle
      | k + 1 =>
        have hk : k < argminIdx (y :: ys) := by omega
        simpa using ih y k hk
lemma argmin_map_lt (f : ℚ → ℚ) (x : ℚ) (xs : List ℚ) :
    argminIdx ((x :: xs).map f) < (x :: xs).length := by
  simpa using argminIdx_lt_length (f x) (xs.map f)

lemma getD_map_cons (f : ℚ → ℚ) (x : ℚ) (xs : List ℚ) (i : ℕ)
    (hi : i < (x :: xs).length) :
    ((x :: xs).map f).getD i 0 = f ((x :: xs).getD i 0) := by
  rw [List.getD_eq_getElem _ _ (by simpa using hi), List.getD_eq_getElem _ _ hi,
    List.getElem_map]

lemma argmin_map_le (f : ℚ → ℚ) (x : ℚ) (xs : List ℚ) :
    ∀ i < (x :: xs).length,
      f ((x :: xs).getD (argminIdx ((x :: xs).map f)) 0) ≤ f ((x :: xs).getD i 0) := by
  intro i hi
  have hidx := argmin_map_lt f x xs
  have h := argminIdx_le (f x) (xs.map f) i (by simpa using hi)
  rw [show (f x :: xs.map f) = (x :: xs).map f from rfl] at h
  rwa [getD_map_cons f x xs _ hidx, getD_map_cons f x xs i hi] at h

lemma argmin_map_first (f : ℚ → ℚ) (x : ℚ) (xs : List ℚ) :
    ∀ i < argminIdx ((x :: xs).map f),
      f ((x :: xs).getD (argminIdx ((x :: xs).map f)) 0) < f ((x :: xs).getD i 0) := by
  intro i hi
  have hidx := argmin_map_lt f x xs
  have hilen : i < (x :: xs).length := lt_trans hi hidx
  have h := argminIdx_first (f x) (xs.map f) i (by simpa using hi)
  rw [show (f x :: xs.map f) = (x :: xs).map f from rfl] at h
  rwa [getD_map_cons f x xs _ hidx, getD_map_cons f x xs i hilen] at h

/-- C2: the Expiry Bucketer assigns exactly the bucket in `TARGET_DAYS`
minimizing `|years * 365 - b|`, with equidistant ties resolved to the first
occurrence in the ordered list, hence the smaller day-count (`np.argmin`
returns the first index attaining the minimum). -/
theorem assign_closest_bucket_argmin (years : ℚ) :
    (assign_closest_bucket years).1 ∈ TARGET_DAYS ∧
    (∀ t ∈ TARGET_DAYS,
      |years * 365 - (assign_closest_bucket years).1| ≤ |years * 365 - t|) ∧
    (∀ t ∈ TARGET_DAYS,
      |years * 365 - t| = |years * 365 - (assign_closest_bucket years).1| →
        (assign_closest_bucket years).1 ≤ t) := by
  have hTD : TARGET_DAYS = 30 :: [60, 90, 120, 180, 270, 360, 540, 720] := rfl
  have hb : (assign_closest_bucket years).1 =
      TARGET_DAYS.getD
        (argminIdx (TARGET_DAYS.map (fun tgt => |years * 365 - tgt|))) 0 := by
    simp only [assign_closest_bucket]
  have hidx : argminIdx (TARGET_DAYS.map (fun tgt => |years * 365 - tgt|)) <
      TARGET_DAYS.length := by
    rw [hTD]; exact argmin_map_lt _ _ _
  have hle : ∀ i < TARGET_DAYS.length,
      |years * 365 - TARGET_DAYS.getD
        (argminIdx (TARGET_DAYS.map (fun tgt => |years * 365 - tgt|))) 0| ≤
        |years * 365 - TARGET_DAYS.getD i 0| := by
    rw [hTD]; exact argmin_map_le (fun tgt => |years * 365 - tgt|) _ _
  have hfirst : ∀ i < argminIdx (TARGET_DAYS.map (fun tgt => |years * 365 - tgt|)),
      |years * 365 - TARGET_DAYS.getD
        (argminIdx (TARGET_DAYS.map (fun tgt => |years * 365 - tgt|))) 0| <
        |years * 365 - TARGET_DAYS.getD i 0| := by
    rw [hTD]; exact argmin_map_first (fun tgt => |years * 365 - tgt|) _ _
  refine ⟨?_, ?_, ?_⟩
  · rw [hb, List.getD_eq_getElem _ _ hidx]
    exact List.getElem_mem _
  · intro t ht
    obtain ⟨i, hi, hit⟩ := List.mem_iff_getElem.mp ht
    have h := hle i hi
    rw [List.getD_eq_getElem _ _ hi, hit] at h
    rw [hb]
    exact h
  · intro t ht htie
    obtain ⟨i, hi, hit⟩ := List.mem_iff_getElem.mp ht
    rcases lt_trichotomy i
      (argminIdx (TARGET_DAYS.map (fun tgt => |years * 365 - tgt|))) with hlt | heq | hgt
    · exfalso
      have h := hfirst i hlt
      rw [List.getD_eq_getElem _ _ hi, hit] at h
      rw [hb] at htie
      exact absurd htie (ne_of_gt h)
    · subst heq
      rw [hb, List.getD_eq_getElem _ _ hidx]
      exact le_of_eq hit
    · have hsorted : TARGET_DAYS.Pairwise (· ≤ ·) := by decide
      have h := List.pairwise_iff_getElem.mp hsorted
        (argminIdx (TARGET_DAYS.map (fun tgt => |years * 365 - tgt|))) i hidx hi hgt
      rw [hit] at h
      rw [hb, List.getD_eq_getElem _ _ hidx]
      exact h

/-- Witness for `assign_closest_bucket_argmin`, instantiated at
`years = 1/10` (36.5 days). -/
theorem assign_closest_bucket_argmin_witness :
    (assign_closest_bucket (1/10)).1 ∈ TARGET_DAYS ∧
    (∀ t ∈ TARGET_DAYS,
      |(1/10 : ℚ) * 365 - (assign_closest_bucket (1/10)).1| ≤ |(1/10 : ℚ) * 365 - t|) ∧
    (∀ t ∈ TARGET_DAYS,
      |(1/10 : ℚ) * 365 - t| = |(1/10 : ℚ) * 365 - (assign_closest_bucket (1/10)).1| →
        (assign_closest_bucket (1/10)).1 ≤ t) :=
  assign_closest_bucket_argmin (1/10)
/-- Adjacent pairs of target horizons, `TARGET_PAIRS = zip(TARGET_DAYS[:-1],
TARGET_DAYS[1:])` in the source. -/
def TARGET_PAIRS : List (ℚ × ℚ) := TARGET_DAYS.zip TARGET_DAYS.tail

/-- Radicand of the forward-volatility formula as computed at lines 260-268 of
`3_produce_iv_dataset_full.py`: with `T1 = T1d/365`, `T2 = T2d/365`, the code
takes `np.sqrt((v2**2 * T2 - v1**2 * T1) / (T2 - T1))`; this is the quantity
under the square root. -/
def fwdRadicand (T1d T2d v1 v2 : ℚ) : ℚ :=
  (v2 ^ 2 * (T2d / 365) - v1 ^ 2 * (T1d / 365)) / (T2d / 365 - T1d / 365)

/-- Radicand of the forward-volatility formula as the spec words it:
`(T2_years * val(T2)^2 - T1_years * val(T1)^2) / (T2_years - T1_years)`. -/
def specFwdRadicand (T1d T2d v1 v2 : ℚ) : ℚ :=
  ((T2d / 365) * v2 ^ 2 - (T1d / 365) * v1 ^ 2) / (T2d / 365 - T1d / 365)

/-- C1 counterexample: at `v(30) = 0.20`, `v(60) = 0.25` the forward
volatility is `sqrt(0.085) ≈ 0.2915`, which differs from the claimed
`0.2958` by more than `0.004`. -/
theorem forward_vol_example_not_0_2958 :
    |Real.sqrt ((fwdRadicand 30 60 (20/100) (25/100) : ℚ) : ℝ) - 0.2958| >
      4 / 1000 := by
  have hrad : (fwdRadicand 30 60 (20/100) (25/100) : ℚ) = 17 / 200 := by
    norm_num [fwdRadicand]
  rw [hrad]
  have hub : Real.sqrt ((17 / 200 : ℚ) : ℝ) < 0.2916 := by
    rw [Real.sqrt_lt' (by norm_num)]
    norm_num
  have hnn : (0 : ℝ) ≤ Real.sqrt ((17 / 200 : ℚ) : ℝ) := Real.sqrt_nonneg _
  rw [abs_of_neg (by linarith)]
  linarith

/-- C1 (amended): for every adjacent pair of target horizons the code's
forward-volatility radicand equals the spec's formula
`(T2_years * v(T2)^2 - T1_years * v(T1)^2) / (T2_years - T1_years)`, and at
`T1 = 30d`, `T2 = 60d`, `v(30) = 0.20`, `v(60) = 0.25` the forward
volatility `sqrt` of the radicand lies strictly between `0.2915` and
`0.2916` (approximately 0.2915, not 0.2958). -/
theorem forward_vol_formula_and_example (p : ℚ × ℚ) (_hp : p ∈ TARGET_PAIRS)
    (v1 v2 : ℚ) :
    fwdRadicand p.1 p.2 v1 v2 = specFwdRadicand p.1 p.2 v1 v2 ∧
    (0.2915 : ℝ) < Real.sqrt ((fwdRadicand 30 60 (20/100) (25/100) : ℚ) : ℝ) ∧
    Real.sqrt ((fwdRadicand 30 60 (20/100) (25/100) : ℚ) : ℝ) < 0.2916 := by
  have hrad : (fwdRadicand 30 60 (20/100) (25/100) : ℚ) = 17 / 200 := by
    norm_num [fwdRadicand]
  refine ⟨?_, ?_, ?_⟩
  · unfold fwdRadicand specFwdRadicand
    ring
  · rw [hrad, show ((17 / 200 : ℚ) : ℝ) = 17 / 200 by norm_num]
    rw [show (0.2915 : ℝ) < Real.sqrt (17 / 200) ↔ (0.2915 : ℝ) ^ 2 < 17 / 200 from
      Real.lt_sqrt (by norm_num)]
    norm_num
  · rw [hrad]
    rw [Real.sqrt_lt' (by norm_num)]
    norm_num

/-- Witness for `forward_vol_formula_and_example`, instantiated at the
adjacent pair `(30, 60)` and endpoint values `1` and `2`. -/
theorem forward_vol_formula_and_example_witness :
    ((30 : ℚ), (60 : ℚ)) ∈ TARGET_PAIRS ∧
    (fwdRadicand 30 60 1 2 = specFwdRadicand 30 60 1 2 ∧
    (0.2915 : ℝ) < Real.sqrt ((fwdRadicand 30 60 (20/100) (25/100) : ℚ) : ℝ) ∧
    Real.sqrt ((fwdRadicand 30 60 (20/100) (25/100) : ℚ) : ℝ) < 0.2916) :=
  ⟨by decide, forward_vol_formula_and_example (30, 60) (by decide) 1 2⟩
/-- One row of the surface store, with the columns kept by
`2_zips_to_zarrs_combined.py` (`KEEP_COLUMNS`, after renaming
`tradingDate` to `teo` and `ticker_tk` to `ticker`). -/
structure SurfaceRecord where
  teo : ℕ
  ticker : String
  rate : ℚ
  years : ℚ
  atmVol : ℚ
  atmCen : ℚ
  atmVega : ℚ
  slope : ℚ
  cCnt : ℚ
  pCnt : ℚ
  vwidth : ℚ
deriving DecidableEq

/-- Liquidity/maturity filter of `load_and_filter_data`
(`3_produce_iv_dataset_full.py`, lines 110-115): keep rows with
`0.01 < years < 2`, `atmVol < 1.5`, `cCnt + pCnt >= 20`, `vwidth <= 0.2`. -/
def load_and_filter_data (rows : List SurfaceRecord) : List SurfaceRecord :=
  rows.filter (fun r =>
    decide (r.years > 1/100 ∧ r.years < 2 ∧ r.atmVol < 3/2 ∧
      r.cCnt + r.pCnt ≥ 20 ∧ r.vwidth ≤ 1/5))

/-- C8: a record with `years > 2` or `cCnt + pCnt < 20` is removed by the
liquidity/maturity filter, so it never reaches bucketing and aggregation
(everything downstream of line 115 consumes only `load_and_filter_data`'s
output). -/
theorem filter_excludes_illiquid (rows : List SurfaceRecord) (r : SurfaceRecord)
    (h : r.years > 2 ∨ r.cCnt + r.pCnt < 20) :
    r ∉ load_and_filter_data rows := by
  intro hmem
  rw [load_and_filter_data, List.mem_filter] at hmem
  have hp := of_decide_eq_true hmem.2
  obtain ⟨-, h2, -, h4, -⟩ := hp
  rcases h with h | h
  · linarith
  · linarith

/-- Sample record violating both liquidity bounds. -/
def illiquidSample : SurfaceRecord :=
  { teo := 0, ticker := "ABC", rate := 0, years := 3, atmVol := 1/2,
    atmCen := 1/2, atmVega := 1, slope := 0, cCnt := 5, pCnt := 5,
    vwidth := 1/10 }

/-- Witness for `filter_excludes_illiquid` at a concrete record with
`years = 3`. -/
theorem filter_excludes_illiquid_witness :
    (illiquidSample.years > 2 ∨ illiquidSample.cCnt + illiquidSample.pCnt < 20) ∧
    illiquidSample ∉ load_and_filter_data [illiquidSample] :=
  ⟨Or.inl (by norm_num [illiquidSample]),
   filter_excludes_illiquid [illiquidSample] illiquidSample
     (Or.inl (by norm_num [illiquidSample]))⟩

/-- Calendar dates present in a surface store, as read back by
`get_existing_zarr_dates` (the `teo` values of the stored rows). -/
def storeDates (store : List SurfaceRecord) : List ℕ :=
  store.map (fun r => r.teo)

/-- One snapshot ZIP file: the date embedded in its name, with the parsed
rows it contains. -/
abbrev ZipBatch : Type := ℕ × List SurfaceRecord

/-- The new-file selection of `get_new_zip_files`: keep ZIP files whose
embedded date is not already in the store, sorted (the code sorts the
selected paths). -/
def get_new_zip_files (existingDates : List ℕ) (zips : List ZipBatch) :
    List ZipBatch :=
  (zips.filter (fun z => decide (z.1 ∉ existingDates))).mergeSort
    (fun a b => decide (a.1 ≤ b.1))

/-- The append of `append_to_existing_zarr_fixed`: concatenate the existing
rows with the new rows and drop exact duplicates (pandas
`drop_duplicates`; `List.dedup` likewise keeps one copy of every row, and
since the dropped rows are exact duplicates the resulting set of rows is
the same). -/
def append_to_existing_zarr_fixed (existing newRows : List SurfaceRecord) :
    List SurfaceRecord :=
  (existing ++ newRows).dedup

/-- One incremental ingestion run of `2_zips_to_zarrs_combined.py` against
an existing store: select the ZIP files with new dates, parse them, and
append their rows. -/
def mergeZipBatches (store : List SurfaceRecord) (zips : List ZipBatch) :
    List SurfaceRecord :=
  append_to_existing_zarr_fixed store
    ((get_new_zip_files (storeDates store) zips).flatMap (fun z => z.2))

lemma mem_mergeZipBatches (store : List SurfaceRecord) (zips : List ZipBatch)
    (r : SurfaceRecord) :
    r ∈ mergeZipBatches store zips ↔
      r ∈ store ∨ ∃ z ∈ zips, z.1 ∉ storeDates store ∧ r ∈ z.2 := by
  simp only [mergeZipBatches, append_to_existing_zarr_fixed, get_new_zip_files,
    List.mem_dedup, List.mem_append, List.mem_flatMap,
    (List.mergeSort_perm _ _).mem_iff, List.mem_filter, decide_eq_true_eq]
  tauto

lemma storeDates_mergeZipBatches (store : List SurfaceRecord)
    (zips : List ZipBatch) (d : ℕ) :
    d ∈ storeDates (mergeZipBatches store zips) ↔
      d ∈ storeDates store ∨
        ∃ z ∈ zips, z.1 ∉ storeDates store ∧ d ∈ storeDates z.2 := by
  constructor
  · rintro hd
    rw [storeDates, List.mem_map] at hd
    obtain ⟨r, hr, rfl⟩ := hd
    rcases (mem_mergeZipBatches store zips r).mp hr with h | ⟨z, hz, hc, hrz⟩
    · left; rw [storeDates, List.mem_map]; exact ⟨r, h, rfl⟩
    · right; exact ⟨z, hz, hc, by rw [storeDates, List.mem_map]; exact ⟨r, hrz, rfl⟩⟩
  · rintro (hd | ⟨z, hz, hc, hdz⟩)
    · rw [storeDates, List.mem_map] at hd ⊢
      obtain ⟨r, hr, rfl⟩ := hd
      exact ⟨r, (mem_mergeZipBatches store zips r).mpr (Or.inl hr), rfl⟩
    · rw [storeDates, List.mem_map] at hdz ⊢
      obtain ⟨r, hr, rfl⟩ := hdz
      exact ⟨r, (mem_mergeZipBatches store zips r).mpr (Or.inr ⟨z, hz, hc, hr⟩), rfl⟩

lemma mem_merge_twice (S : List SurfaceRecord) (Ba Bb : List ZipBatch)
    (ha : ∀ z ∈ Ba, z.1 ∉ storeDates S)
    (hb : ∀ z ∈ Bb, z.1 ∉ storeDates S ∧ ∀ w ∈ Ba, z.1 ∉ storeDates w.2)
    (r : SurfaceRecord) :
    r ∈ mergeZipBatches (mergeZipBatches S Ba) Bb ↔
      (r ∈ S ∨ ∃ z ∈ Ba, r ∈ z.2) ∨ ∃ z ∈ Bb, r ∈ z.2 := by
  rw [mem_mergeZipBatches, mem_mergeZipBatches]
  constructor
  · rintro ((h | ⟨z, hz, -, hrz⟩) | ⟨z, hz, -, hrz⟩)
    · exact Or.inl (Or.inl h)
    · exact Or.inl (Or.inr ⟨z, hz, hrz⟩)
    · exact Or.inr ⟨z, hz, hrz⟩
  · rintro ((h | ⟨z, hz, hrz⟩) | ⟨z, hz, hrz⟩)
    · exact Or.inl (Or.inl h)
    · exact Or.inl (Or.inr ⟨z, hz, ha z hz, hrz⟩)
    · refine Or.inr ⟨z, hz, ?_, hrz⟩
      rw [storeDates_mergeZipBatches]
      rintro (hd | ⟨w, hw, -, hdw⟩)
      · exact (hb z hz).1 hd
      · exact (hb z hz).2 w hw hdw

/-- C3: merging two snapshot batches whose embedded dates are disjoint from
each other and from the dates already in the store is order-independent up
to the set of stored rows. -/
theorem merge_order_independent (S : List SurfaceRecord) (B1 B2 : List ZipBatch)
    (h1 : ∀ z ∈ B1, z.1 ∉ storeDates S ∧ ∀ w ∈ B2, z.1 ∉ storeDates w.2)
    (h2 : ∀ z ∈ B2, z.1 ∉ storeDates S ∧ ∀ w ∈ B1, z.1 ∉ storeDates w.2) :
    (mergeZipBatches (mergeZipBatches S B1) B2).toFinset =
      (mergeZipBatches (mergeZipBatches S B2) B1).toFinset := by
  ext r
  simp only [List.mem_toFinset]
  rw [mem_merge_twice S B1 B2 (fun z hz => (h1 z hz).1) h2 r,
    mem_merge_twice S B2 B1 (fun z hz => (h2 z hz).1) h1 r]
  exact or_right_comm

/-- Sample stored row dated `d` for ticker `tk`. -/
def sampleRec (d : ℕ) (tk : String) : SurfaceRecord :=
  { teo := d, ticker := tk, rate := 0, years := 1, atmVol := 1/4,
    atmCen := 1/4, atmVega := 1, slope := 0, cCnt := 15, pCnt := 15,
    vwidth := 1/10 }

/-- Witness for `merge_order_independent` on a one-row store and two
single-file batches with pairwise distinct dates. -/
theorem merge_order_independent_witness :
    (∀ z ∈ [((2 : ℕ), [sampleRec 2 "A"])],
      z.1 ∉ storeDates [sampleRec 1 "A"] ∧
        ∀ w ∈ [((3 : ℕ), [sampleRec 3 "B"])], z.1 ∉ storeDates w.2) ∧
    (∀ z ∈ [((3 : ℕ), [sampleRec 3 "B"])],
      z.1 ∉ storeDates [sampleRec 1 "A"] ∧
        ∀ w ∈ [((2 : ℕ), [sampleRec 2 "A"])], z.1 ∉ storeDates w.2) ∧
    (mergeZipBatches (mergeZipBatches [sampleRec 1 "A"]
        [((2 : ℕ), [sampleRec 2 "A"])]) [((3 : ℕ), [sampleRec 3 "B"])]).toFinset =
      (mergeZipBatches (mergeZipBatches [sampleRec 1 "A"]
        [((3 : ℕ), [sampleRec 3 "B"])]) [((2 : ℕ), [sampleRec 2 "A"])]).toFinset :=
  ⟨by decide, by decide,
   merge_order_independent [sampleRec 1 "A"] [((2 : ℕ), [sampleRec 2 "A"])]
     [((3 : ℕ), [sampleRec 3 "B"])] (by decide) (by decide)⟩
/-- One row of the output cube store
(`output/aggregated_iv_cross_with_totals_flat.zarr`).  `weighted_value` is
an `Option` since a float NaN (for example from a zero-weight division) is
modelled as `none`. -/
structure CubeRow where
  teo : ℕ
  gics_sector : String
  size_category : String
  style : String
  expiry_label : String
  value_type : String
  weighted_value : Option ℚ
deriving DecidableEq

/-- The natural key of a cube row, the `subset` passed to
`drop_duplicates` at line 146 of `3_produce_iv_dataset_full.py`. -/
def cubeKey (r : CubeRow) : ℕ × String × String × String × String × String :=
  (r.teo, r.gics_sector, r.size_category, r.style, r.expiry_label, r.value_type)

/-- Deduplication on the natural key keeping the first occurrence, the
semantics of pandas `drop_duplicates(subset=[natural key])`. -/
def dropDupKeyAux (seen : List (ℕ × String × String × String × String × String)) :
    List CubeRow → List CubeRow
  | [] => []
  | r :: rs =>
    if cubeKey r ∈ seen then dropDupKeyAux seen rs
    else r :: dropDupKeyAux (cubeKey r :: seen) rs

/-- Key-based duplicate removal used by the Incremental Output Merger. -/
def drop_duplicates_by_key (rows : List CubeRow) : List CubeRow :=
  dropDupKeyAux [] rows

/-- The successful append path of `append_to_existing_output` (lines
143-150): concatenate existing and new rows, then deduplicate on the
natural key. -/
def append_to_existing_output (existing newRows : List CubeRow) : List CubeRow :=
  drop_duplicates_by_key (existing ++ newRows)

lemma dropDupKeyAux_not_mem_seen (l : List CubeRow) :
    ∀ seen r, r ∈ dropDupKeyAux seen l → cubeKey r ∉ seen := by
  induction l with
  | nil => intro seen r hr; simp [dropDupKeyAux] at hr
  | cons a l ih =>
    intro seen r hr
    rw [dropDupKeyAux] at hr
    by_cases ha : cubeKey a ∈ seen
    · rw [if_pos ha] at hr
      exact ih seen r hr
    · rw [if_neg ha] at hr
      rcases List.mem_cons.mp hr with rfl | hr
      · exact ha
      · have := ih (cubeKey a :: seen) r hr
        exact fun hs => this (List.mem_cons_of_mem _ hs)

lemma dropDupKeyAux_pairwise (l : List CubeRow) :
    ∀ seen, (dropDupKeyAux seen l).Pairwise (fun a b => cubeKey a ≠ cubeKey b) := by
  induction l with
  | nil => intro seen; simp [dropDupKeyAux]
  | cons a l ih =>
    intro seen
    rw [dropDupKeyAux]
    by_cases ha : cubeKey a ∈ seen
    · rw [if_pos ha]; exact ih seen
    · rw [if_neg ha]
      refine List.Pairwise.cons ?_ (ih (cubeKey a :: seen))
      intro b hb hab
      have := dropDupKeyAux_not_mem_seen l (cubeKey a :: seen) b hb
      exact this (by rw [← hab]; exact List.mem_cons_self _ _)

/-- C5: after any incremental output merge — hence after any sequence of
merges, including re-merging an already-merged batch — the cube store
holds at most one row per natural key
(date, gics_sector, size_category, style, expiry_label, value_type). -/
theorem output_merge_key_unique (existing newRows : List CubeRow) :
    (append_to_existing_output existing newRows).Pairwise
      (fun a b => cubeKey a ≠ cubeKey b) :=
  dropDupKeyAux_pairwise (existing ++ newRows) []

/-- Filesystem state of the output store: the main zarr path and the
`.temp` side path, each either absent or holding rows. -/
structure OutputState where
  main : Option (List CubeRow)
  temp : Option (List CubeRow)
deriving DecidableEq

/-- One run of `append_to_existing_output` (lines 120-180 of
`3_produce_iv_dataset_full.py`) as a state transition.  `appendFails`
models an exception raised while combining the datasets (for example a
schema mismatch), which the code catches before any write to the main
path; the handler writes the new batch to `output_path + '.temp'` and
warns that manual intervention may be needed (the returned flag). -/
def append_to_existing_output_run (st : OutputState) (newRows : List CubeRow)
    (appendFails : Bool) : OutputState × Bool :=
  match st.main with
  | none => ({ main := some newRows, temp := st.temp }, false)
  | some existing =>
    if appendFails then
      ({ main := some existing, temp := some newRows }, true)
    else
      ({ main := some (append_to_existing_output existing newRows),
         temp := st.temp }, false)

/-- C7: when appending a candidate batch to an existing cube store fails,
the store's persisted content is unchanged, the new batch is persisted to
the separate `.temp` side location, and the run reports that manual
reconciliation is needed. -/
theorem append_failure_preserves_store (st : OutputState)
    (newRows existing : List CubeRow) (hmain : st.main = some existing) :
    (append_to_existing_output_run st newRows true).1.main = some existing ∧
    (append_to_existing_output_run st newRows true).1.temp = some newRows ∧
    (append_to_existing_output_run st newRows true).2 = true := by
  simp [append_to_existing_output_run, hmain]

/-- Sample cube row for the witnesses. -/
def sampleCubeRow : CubeRow :=
  { teo := 1, gics_sector := "Information Technology", size_category := "Large Cap",
    style := "Growth", expiry_label := "30", value_type := "atmVol",
    weighted_value := some (1/4) }

/-- Witness for `append_failure_preserves_store` on a one-row store. -/
theorem append_failure_preserves_store_witness :
    (OutputState.mk (some [sampleCubeRow]) none).main = some [sampleCubeRow] ∧
    ((append_to_existing_output_run (OutputState.mk (some [sampleCubeRow]) none)
        [] true).1.main = some [sampleCubeRow] ∧
      (append_to_existing_output_run (OutputState.mk (some [sampleCubeRow]) none)
        [] true).1.temp = some [] ∧
      (append_to_existing_output_run (OutputState.mk (some [sampleCubeRow]) none)
        [] true).2 = true) :=
  ⟨rfl, append_failure_preserves_store _ [] [sampleCubeRow] rfl⟩
/-- One enriched record as fed to the aggregation stage
(`df[cols]` at line 428-429 of `3_produce_iv_dataset_full.py`).
`market_cap` is `none` when the left merge with the market-cap series
found no match (a float NaN in the code). -/
structure AggRow where
  teo : ℕ
  gics_sector : String
  size_category : String
  style : String
  expiry_label : String
  value_type : String
  value : ℚ
  market_cap : Option ℚ
deriving DecidableEq

/-- The per-row weighted numerator `value * market_cap` (NaN when the
market cap is missing). -/
def weighted_value_num (r : AggRow) : Option ℚ :=
  r.market_cap.map (fun m => r.value * m)

/-- Group sum of the weighted numerators; pandas `sum` skips NaN, hence the
`filterMap`. -/
def sumNum (rows : List AggRow) : ℚ :=
  (rows.filterMap weighted_value_num).sum

/-- Group sum of the market caps; pandas `sum` skips NaN. -/
def sumCap (rows : List AggRow) : ℚ :=
  (rows.filterMap (fun r => r.market_cap)).sum

/-- Ratio `weighted_value_num / market_cap` after the group sums.  A zero
denominator only arises when every market cap in the group is missing, in
which case both float sums are `0.0` and the pandas ratio is `0.0/0.0 =
NaN`, modelled as `none`. -/
def divOpt (n d : ℚ) : Option ℚ :=
  if d = 0 then none else some (n / d)

/-- Full-detail group key (`group_cols` at line 435). -/
def groupKey (r : AggRow) : ℕ × String × String × String × String × String :=
  (r.teo, r.gics_sector, r.size_category, r.style, r.expiry_label, r.value_type)

/-- Grand-total group key (`['teo', 'expiry_label', 'value_type']` at
line 460). -/
def sliceKey (r : AggRow) : ℕ × String × String :=
  (r.teo, r.expiry_label, r.value_type)

/-- Full-detail aggregation `agg_main` (lines 434-439): group by
`groupKey`, sum numerator and market cap, divide. -/
def agg_main (rows : List AggRow) : List CubeRow :=
  ((rows.map groupKey).dedup).map (fun k =>
    { teo := k.1, gics_sector := k.2.1, size_category := k.2.2.1,
      style := k.2.2.2.1, expiry_label := k.2.2.2.2.1,
      value_type := k.2.2.2.2.2,
      weighted_value :=
        divOpt (sumNum (rows.filter (fun r => decide (groupKey r = k))))
               (sumCap (rows.filter (fun r => decide (groupKey r = k)))) })

/-- Grand total `total_all` (lines 459-469): group by the slice key only
and set all three categorical dimensions to the literal `Total`. -/
def total_all (rows : List AggRow) : List CubeRow :=
  ((rows.map sliceKey).dedup).map (fun k =>
    { teo := k.1, gics_sector := "Total", size_category := "Total",
      style := "Total", expiry_label := k.2.1, value_type := k.2.2,
      weighted_value :=
        divOpt (sumNum (rows.filter (fun r => decide (sliceKey r = k))))
               (sumCap (rows.filter (fun r => decide (sliceKey r = k)))) })

/-- Sector roll-up `total_sector` (lines 472-480). -/
def total_sector (rows : List AggRow) : List CubeRow :=
  ((rows.map (fun r => (r.teo, r.size_category, r.style, r.expiry_label,
      r.value_type))).dedup).map (fun k =>
    { teo := k.1, gics_sector := "Total", size_category := k.2.1,
      style := k.2.2.1, expiry_label := k.2.2.2.1, value_type := k.2.2.2.2,
      weighted_value :=
        divOpt (sumNum (rows.filter (fun r =>
            decide ((r.teo, r.size_category, r.style, r.expiry_label,
              r.value_type) = k))))
          (sumCap (rows.filter (fun r =>
            decide ((r.teo, r.size_category, r.style, r.expiry_label,
              r.value_type) = k)))) })

/-- Size roll-up `total_size` (lines 483-491). -/
def total_size (rows : List AggRow) : List CubeRow :=
  ((rows.map (fun r => (r.teo, r.gics_sector, r.style, r.expiry_label,
      r.value_type))).dedup).map (fun k =>
    { teo := k.1, gics_sector := k.2.1, size_category := "Total",
      style := k.2.2.1, expiry_label := k.2.2.2.1, value_type := k.2.2.2.2,
      weighted_value :=
        divOpt (sumNum (rows.filter (fun r =>
            decide ((r.teo, r.gics_sector, r.style, r.expiry_label,
              r.value_type) = k))))
          (sumCap (rows.filter (fun r =>
            decide ((r.teo, r.gics_sector, r.style, r.expiry_label,
              r.value_type) = k)))) })

/-- Style roll-up `total_style` (lines 494-502). -/
def total_style (rows : List AggRow) : List CubeRow :=
  ((rows.map (fun r => (r.teo, r.gics_sector, r.size_category, r.expiry_label,
      r.value_type))).dedup).map (fun k =>
    { teo := k.1, gics_sector := k.2.1, size_category := k.2.2.1,
      style := "Total", expiry_label := k.2.2.2.1, value_type := k.2.2.2.2,
      weighted_value :=
        divOpt (sumNum (rows.filter (fun r =>
            decide ((r.teo, r.gics_sector, r.size_category, r.expiry_label,
              r.value_type) = k))))
          (sumCap (rows.filter (fun r =>
            decide ((r.teo, r.gics_sector, r.size_category, r.expiry_label,
              r.value_type) = k)))) })

/-- Sector-and-size roll-up `total_sector_size` (lines 505-514). -/
def total_sector_size (rows : List AggRow) : List CubeRow :=
  ((rows.map (fun r => (r.teo, r.style, r.expiry_label, r.value_type))).dedup).map
    (fun k =>
    { teo := k.1, gics_sector := "Total", size_category := "Total",
      style := k.2.1, expiry_label := k.2.2.1, value_type := k.2.2.2,
      weighted_value :=
        divOpt (sumNum (rows.filter (fun r =>
            decide ((r.teo, r.style, r.expiry_label, r.value_type) = k))))
          (sumCap (rows.filter (fun r =>
            decide ((r.teo, r.style, r.expiry_label, r.value_type) = k)))) })

/-- Sector-and-style roll-up `total_sector_style` (lines 517-526). -/
def total_sector_style (rows : List AggRow) : List CubeRow :=
  ((rows.map (fun r => (r.teo, r.size_category, r.expiry_label,
      r.value_type))).dedup).map (fun k =>
    { teo := k.1, gics_sector := "Total", size_category := k.2.1,
      style := "Total", expiry_label := k.2.2.1, value_type := k.2.2.2,
      weighted_value :=
        divOpt (sumNum (rows.filter (fun r =>
            decide ((r.teo, r.size_category, r.expiry_label, r.value_type) = k))))
          (sumCap (rows.filter (fun r =>
            decide ((r.teo, r.size_category, r.expiry_label, r.value_type) = k)))) })

/-- Size-and-style roll-up `total_size_style` (lines 529-538). -/
def total_size_style (rows : List AggRow) : List CubeRow :=
  ((rows.map (fun r => (r.teo, r.gics_sector, r.expiry_label,
      r.value_type))).dedup).map (fun k =>
    { teo := k.1, gics_sector := k.2.1, size_category := "Total",
      style := "Total", expiry_label := k.2.2.1, value_type := k.2.2.2,
      weighted_value :=
        divOpt (sumNum (rows.filter (fun r =>
            decide ((r.teo, r.gics_sector, r.expiry_label, r.value_type) = k))))
          (sumCap (rows.filter (fun r =>
            decide ((r.teo, r.gics_sector, r.expiry_label, r.value_type) = k)))) })

/-- The combined candidate batch `agg_all` (line 541): the union of the
full-detail cube and all seven roll-ups, in the code's concatenation
order. -/
def agg_all (rows : List AggRow) : List CubeRow :=
  agg_main rows ++ total_all rows ++ total_sector rows ++ total_size rows ++
    total_style rows ++ total_sector_size rows ++ total_sector_style rows ++
    total_size_style rows

/-- Rows of the aggregation input belonging to the slice of a grand-total
cube row (same date, expiry label and value type). -/
def sliceOf (rows : List AggRow) (c : CubeRow) : List AggRow :=
  rows.filter (fun r =>
    decide (sliceKey r = (c.teo, c.expiry_label, c.value_type)))
lemma filterMap_sum_cons (g : AggRow → Option ℚ) (r : AggRow) (t : List AggRow) :
    ((r :: t).filterMap g).sum = (g r).getD 0 + (t.filterMap g).sum := by
  cases h : g r <;> simp [List.filterMap_cons, h]

lemma sumNum_filter_cons (sec : String) (r : AggRow) (t : List AggRow) :
    sumNum ((r :: t).filter (fun x => decide (x.gics_sector = sec))) =
      (if r.gics_sector = sec then (weighted_value_num r).getD 0 else 0) +
        sumNum (t.filter (fun x => decide (x.gics_sector = sec))) := by
  by_cases hfr : r.gics_sector = sec
  · rw [List.filter_cons_of_pos (by simp [hfr]), if_pos hfr]
    exact filterMap_sum_cons weighted_value_num r _
  · rw [List.filter_cons_of_neg (by simp [hfr]), if_neg hfr, zero_add]

lemma sumNum_sector_partition (l : List AggRow) :
    ∑ sec ∈ (l.map (fun r => r.gics_sector)).toFinset,
      sumNum (l.filter (fun r => decide (r.gics_sector = sec))) = sumNum l := by
  induction l with
  | nil => simp [sumNum]
  | cons r t ih =>
    rw [List.map_cons, List.toFinset_cons]
    have hsum : ∀ S : Finset String, r.gics_sector ∈ S →
        ∑ sec ∈ S, sumNum ((r :: t).filter (fun x => decide (x.gics_sector = sec))) =
          (weighted_value_num r).getD 0 +
            ∑ sec ∈ S, sumNum (t.filter (fun x => decide (x.gics_sector = sec))) := by
      intro S hS
      rw [Finset.sum_congr rfl (fun sec _ => sumNum_filter_cons sec r t),
        Finset.sum_add_distrib, Finset.sum_ite_eq, if_pos hS]
    by_cases hmem : r.gics_sector ∈ (t.map (fun x => x.gics_sector)).toFinset
    · rw [Finset.insert_eq_self.mpr hmem, hsum _ hmem, ih]
      exact (filterMap_sum_cons weighted_value_num r t).symm
    · rw [hsum _ (Finset.mem_insert_self _ _), Finset.sum_insert hmem]
      have hnil : t.filter (fun x => decide (x.gics_sector = r.gics_sector)) = [] := by
        rw [List.filter_eq_nil_iff]
        intro a ha
        simp only [decide_eq_true_eq]
        intro hcon
        exact hmem (by rw [List.mem_toFinset, List.mem_map]; exact ⟨a, ha, hcon⟩)
      rw [hnil]
      show (weighted_value_num r).getD 0 + (sumNum ([] : List AggRow) + _) = _
      rw [show sumNum ([] : List AggRow) = 0 from rfl, zero_add, ih]
      exact (filterMap_sum_cons weighted_value_num r t).symm

/-- C4: every grand-total row produced by `total_all` carries the
market-cap-weighted mean over literally every aggregation-input row in its
(date, expiry_label, value_type) slice, and this value reconciles with the
sum of the per-sector weighted numerators normalized by the slice's total
market cap. -/
theorem grand_total_weighted_mean (rows : List AggRow) (c : CubeRow)
    (hc : c ∈ total_all rows) :
    c.gics_sector = "Total" ∧ c.size_category = "Total" ∧ c.style = "Total" ∧
    c.weighted_value =
      divOpt (sumNum (sliceOf rows c)) (sumCap (sliceOf rows c)) ∧
    c.weighted_value =
      divOpt (∑ sec ∈ ((sliceOf rows c).map (fun r => r.gics_sector)).toFinset,
          sumNum ((sliceOf rows c).filter (fun r => decide (r.gics_sector = sec))))
        (sumCap (sliceOf rows c)) := by
  rw [total_all] at hc
  obtain ⟨k, hk, rfl⟩ := List.mem_map.mp hc
  have hslice : sliceOf rows
      { teo := k.1, gics_sector := "Total", size_category := "Total",
        style := "Total", expiry_label := k.2.1, value_type := k.2.2,
        weighted_value :=
          divOpt (sumNum (rows.filter (fun r => decide (sliceKey r = k))))
            (sumCap (rows.filter (fun r => decide (sliceKey r = k)))) } =
      rows.filter (fun r => decide (sliceKey r = k)) := rfl
  refine ⟨rfl, rfl, rfl, ?_, ?_⟩
  · rw [hslice]
  · rw [hslice, sumNum_sector_partition]
/-- Sample aggregation-input row, Information Technology sector. -/
def aggSampleA : AggRow :=
  { teo := 1, gics_sector := "Information Technology",
    size_category := "Large Cap", style := "Growth", expiry_label := "30",
    value_type := "atmVol", value := 3, market_cap := some 2 }

/-- Sample aggregation-input row, Energy sector, same slice as
`aggSampleA`. -/
def aggSampleB : AggRow :=
  { teo := 1, gics_sector := "Energy", size_category := "Mid Cap",
    style := "Value", expiry_label := "30", value_type := "atmVol",
    value := 5, market_cap := some 4 }

/-- The grand-total row over `aggSampleA` and `aggSampleB`:
`(3*2 + 5*4) / (2 + 4) = 13/3`. -/
def grandTotalSample : CubeRow :=
  { teo := 1, gics_sector := "Total", size_category := "Total",
    style := "Total", expiry_label := "30", value_type := "atmVol",
    weighted_value := some (13/3) }

lemma total_all_sample : total_all [aggSampleA, aggSampleB] = [grandTotalSample] := by
  rw [total_all]
  have hmap : List.map sliceKey [aggSampleA, aggSampleB] =
      [((1 : ℕ), "30", "atmVol"), ((1 : ℕ), "30", "atmVol")] := rfl
  have hded : ([((1 : ℕ), "30", "atmVol"), ((1 : ℕ), "30", "atmVol")] :
      List (ℕ × String × String)).dedup = [((1 : ℕ), "30", "atmVol")] := by decide
  rw [hmap, hded]
  have hfil : List.filter
      (fun r => decide (sliceKey r = ((1 : ℕ), "30", "atmVol")))
      [aggSampleA, aggSampleB] = [aggSampleA, aggSampleB] := by
    have ha : sliceKey aggSampleA = ((1 : ℕ), "30", "atmVol") := rfl
    have hb : sliceKey aggSampleB = ((1 : ℕ), "30", "atmVol") := rfl
    simp [List.filter, ha, hb]
  simp only [List.map_cons, List.map_nil, hfil, List.cons.injEq, and_true]
  have hnum : sumNum [aggSampleA, aggSampleB] = 26 := by
    norm_num [sumNum, weighted_value_num, aggSampleA, aggSampleB,
      List.filterMap_cons]
  have hcap : sumCap [aggSampleA, aggSampleB] = 6 := by
    norm_num [sumCap, aggSampleA, aggSampleB, List.filterMap_cons]
  rw [hnum, hcap]
  rw [grandTotalSample, divOpt, if_neg (by norm_num)]
  simp only [CubeRow.mk.injEq, Option.some.injEq]
  norm_num

/-- Witness for `grand_total_weighted_mean` on a two-sector slice. -/
theorem grand_total_weighted_mean_witness :
    grandTotalSample ∈ total_all [aggSampleA, aggSampleB] ∧
    (grandTotalSample.gics_sector = "Total" ∧
     grandTotalSample.size_category = "Total" ∧
     grandTotalSample.style = "Total" ∧
     grandTotalSample.weighted_value =
       divOpt (sumNum (sliceOf [aggSampleA, aggSampleB] grandTotalSample))
         (sumCap (sliceOf [aggSampleA, aggSampleB] grandTotalSample)) ∧
     grandTotalSample.weighted_value =
       divOpt (∑ sec ∈ ((sliceOf [aggSampleA, aggSampleB] grandTotalSample).map
             (fun r => r.gics_sector)).toFinset,
           sumNum ((sliceOf [aggSampleA, aggSampleB] grandTotalSample).filter
             (fun r => decide (r.gics_sector = sec))))
         (sumCap (sliceOf [aggSampleA, aggSampleB] grandTotalSample))) := by
  have hc : grandTotalSample ∈ total_all [aggSampleA, aggSampleB] := by
    rw [total_all_sample]
    exact List.mem_singleton.mpr rfl
  exact ⟨hc, grand_total_weighted_mean [aggSampleA, aggSampleB] grandTotalSample hc⟩
/-- One forward-volatility cell of the pivot table (lines 260-279).  The
code computes `np.sqrt(radicand)`: the result is NaN exactly when an
endpoint bucket value is missing or the radicand is negative.  Only
presence/absence of the cell survives the later `dropna`, and `ℚ` has no
square roots, so the cell carries the radicand (the squared forward
volatility) as payload; its definedness matches the code exactly. -/
def fwd_cell (T1d T2d : ℚ) (v1 v2 : Option ℚ) : Option ℚ :=
  match v1, v2 with
  | some a, some b =>
    if fwdRadicand T1d T2d a b < 0 then none
    else some (fwdRadicand T1d T2d a b)
  | _, _ => none

/-- The melt followed by `.dropna()` at line 304: cells whose value is NaN
(`none`) are removed before any downstream processing. -/
def melt_dropna (cells : List (String × Option ℚ)) : List (String × ℚ) :=
  cells.filterMap (fun c => c.2.map (fun v => (c.1, v)))

/-- Aggregation-input row whose market cap is missing (left merge found no
match), as arises after `classify_size` labels it Small Cap. -/
def zeroCapRow : AggRow :=
  { teo := 5, gics_sector := "Energy", size_category := "Small Cap",
    style := "Value", expiry_label := "30", value_type := "atmVol",
    value := 2, market_cap := none }

/-- The cube row `agg_main` produces from `zeroCapRow` alone: both group
sums are zero (pandas sums skip NaN), so the weighted value is `0.0/0.0 =
NaN`, yet the row is kept. -/
def undefinedValueRow : CubeRow :=
  { teo := 5, gics_sector := "Energy", size_category := "Small Cap",
    style := "Value", expiry_label := "30", value_type := "atmVol",
    weighted_value := none }

lemma agg_main_zeroCap : agg_main [zeroCapRow] = [undefinedValueRow] := by decide

/-- C6 counterexample: a group whose market-cap denominator is zero (every
market cap missing) produces a cube row with an undefined weighted value,
and that row is part of the candidate batch `agg_all` that gets persisted —
it is not excluded from the output. -/
theorem zero_denominator_row_persisted :
    undefinedValueRow ∈ agg_all [zeroCapRow] ∧
    undefinedValueRow.weighted_value = none := by
  constructor
  · simp [agg_all, agg_main_zeroCap]
  · rfl

/-- Rows of the aggregation input belonging to the full-detail group of a
cube row (its natural key). -/
def groupOf (rows : List AggRow) (c : CubeRow) : List AggRow :=
  rows.filter (fun r => decide (groupKey r = cubeKey c))

/-- C6 (amended): a negative forward-volatility radicand yields an
undefined (NaN) cell, and the melt's `dropna` excludes exactly the
undefined cells from everything downstream; a weighted-mean group with a
zero (all-missing) market-cap denominator instead yields a cube row whose
weighted value is undefined (NaN) but which is persisted rather than
excluded; in both cases the value is never replaced by a default such as
zero — a defined weighted value always is the ratio of the group sums with
a nonzero denominator. -/
theorem undefined_values_behavior (T1d T2d a b : ℚ)
    (hneg : fwdRadicand T1d T2d a b < 0)
    (cells : List (String × Option ℚ)) (lab : String) (v : ℚ)
    (rows : List AggRow) (c : CubeRow) (hc : c ∈ agg_main rows) :
    fwd_cell T1d T2d (some a) (some b) = none ∧
    ((lab, v) ∈ melt_dropna cells ↔ (lab, some v) ∈ cells) ∧
    c.weighted_value = divOpt (sumNum (groupOf rows c)) (sumCap (groupOf rows c)) ∧
    (c.weighted_value = none ↔ sumCap (groupOf rows c) = 0) := by
  refine ⟨?_, ?_, ?_⟩
  · rw [fwd_cell, if_pos hneg]
  · constructor
    · rintro hm
      rw [melt_dropna, List.mem_filterMap] at hm
      obtain ⟨⟨l2, ov⟩, hcel, hf⟩ := hm
      match ov, hf with
      | some w, hf =>
        simp only [Option.map_some, Option.some.injEq, Prod.mk.injEq] at hf
        obtain ⟨rfl, rfl⟩ := hf
        exact hcel
    · intro hm
      rw [melt_dropna, List.mem_filterMap]
      exact ⟨(lab, some v), hm, rfl⟩
  · rw [agg_main] at hc
    obtain ⟨k, hk, rfl⟩ := List.mem_map.mp hc
    have hgrp : groupOf rows
        { teo := k.1, gics_sector := k.2.1, size_category := k.2.2.1,
          style := k.2.2.2.1, expiry_label := k.2.2.2.2.1,
          value_type := k.2.2.2.2.2,
          weighted_value :=
            divOpt (sumNum (rows.filter (fun r => decide (groupKey r = k))))
              (sumCap (rows.filter (fun r => decide (groupKey r = k)))) } =
        rows.filter (fun r => decide (groupKey r = k)) := rfl
    rw [hgrp]
    refine ⟨rfl, ?_⟩
    by_cases hz : sumCap (rows.filter (fun r => decide (groupKey r = k))) = 0
    · simp [divOpt, hz]
    · simp [divOpt, hz]

/-- Witness for `undefined_values_behavior`: radicand `-1` at endpoint
values `1` and `0`, a single undefined melt cell, and the all-missing
market-cap group of `zeroCapRow`. -/
theorem undefined_values_behavior_witness :
    fwdRadicand 30 60 1 0 < 0 ∧
    undefinedValueRow ∈ agg_main [zeroCapRow] ∧
    (fwd_cell 30 60 (some 1) (some 0) = none ∧
     (((("x" : String), (0 : ℚ)) ∈ melt_dropna [("x", none)]) ↔
       (("x", some (0 : ℚ)) ∈ ([("x", none)] : List (String × Option ℚ)))) ∧
     undefinedValueRow.weighted_value =
       divOpt (sumNum (groupOf [zeroCapRow] undefinedValueRow))
         (sumCap (groupOf [zeroCapRow] undefinedValueRow)) ∧
     (undefinedValueRow.weighted_value = none ↔
       sumCap (groupOf [zeroCapRow] undefinedValueRow) = 0)) := by
  have hneg : fwdRadicand 30 60 1 0 < 0 := by norm_num [fwdRadicand]
  have hc : undefinedValueRow ∈ agg_main [zeroCapRow] := by
    rw [agg_main_zeroCap]; exact List.mem_singleton.mpr rfl
  exact ⟨hneg, hc,
    undefined_values_behavior 30 60 1 0 hneg [("x", none)] "x" 0
      [zeroCapRow] undefinedValueRow hc⟩
/-- One melted surface row after the sector-code coordinate has been
attached (line 334-335 of `3_produce_iv_dataset_full.py`), before the
dropna/mapping/merge chain.  `value` and `fs_industry_code` are `none`
when the corresponding float is NaN. -/
structure RawJoinedRow where
  teo : ℕ
  ticker : String
  expiry_label : String
  value_type : String
  value : Option ℚ
  fs_industry_code : Option ℤ
deriving DecidableEq

/-- A record after sector mapping, market-cap merge and size
classification (lines 335-356). -/
structure EnrichedRow where
  teo : ℕ
  ticker : String
  expiry_label : String
  value_type : String
  value : ℚ
  gics_sector : String
  market_cap : Option ℚ
  size_category : String
deriving DecidableEq

/-- The pandas comparison `market_cap >= threshold`: False when the market
cap is NaN (`none`), since every comparison against NaN is False. -/
def optGE (mc : Option ℚ) (threshold : ℚ) : Bool :=
  match mc with
  | none => false
  | some x => decide (x ≥ threshold)

/-- `classify_size` (lines 348-354): Large Cap at `>= 10e9`, Mid Cap at
`>= 2e9`, otherwise Small Cap. -/
def classify_size (market_cap : Option ℚ) : String :=
  if optGE market_cap (10 * 10 ^ 9) then "Large Cap"
  else if optGE market_cap (2 * 10 ^ 9) then "Mid Cap"
  else "Small Cap"

/-- Per-row enrichment (lines 335-356): drop the row if `value` or
`fs_industry_code` is NaN, map the industry code to a sector code and a
sector name dropping unmapped rows, left-merge the market cap (possibly
missing), and classify size.  The static dictionaries
`fs_industry_to_gic_code` and `gic_code_to_gic_name` and the market-cap
series are parameters. -/
def enrichRow (gicCode : ℤ → Option ℤ) (gicName : ℤ → Option String)
    (mktcap : ℕ → String → Option ℚ) (r : RawJoinedRow) : Option EnrichedRow :=
  match r.fs_industry_code, r.value with
  | some code, some v =>
    match gicCode code with
    | some sc =>
      match gicName sc with
      | some name =>
        some { teo := r.teo, ticker := r.ticker, expiry_label := r.expiry_label,
               value_type := r.value_type, value := v, gics_sector := name,
               market_cap := mktcap r.teo r.ticker,
               size_category := classify_size (mktcap r.teo r.ticker) }
      | none => none
    | none => none
  | _, _ => none

/-- The Cross-Sectional Enricher over a list of rows. -/
def enrich (gicCode : ℤ → Option ℤ) (gicName : ℤ → Option String)
    (mktcap : ℕ → String → Option ℚ) (rows : List RawJoinedRow) :
    List EnrichedRow :=
  rows.filterMap (enrichRow gicCode gicName mktcap)

lemma enrichRow_eq (gicCode : ℤ → Option ℤ) (gicName : ℤ → Option String)
    (mktcap : ℕ → String → Option ℚ) (r : RawJoinedRow) (code sc : ℤ)
    (v : ℚ) (name : String) (hic : r.fs_industry_code = some code)
    (hv : r.value = some v) (hg : gicCode code = some sc)
    (hn : gicName sc = some name) :
    enrichRow gicCode gicName mktcap r =
      some { teo := r.teo, ticker := r.ticker, expiry_label := r.expiry_label,
             value_type := r.value_type, value := v, gics_sector := name,
             market_cap := mktcap r.teo r.ticker,
             size_category := classify_size (mktcap r.teo r.ticker) } := by
  unfold enrichRow
  rw [hic, hv]
  dsimp only
  rw [hg]
  dsimp only
  rw [hn]
lemma enrichRow_none_of_code_none (gicCode : ℤ → Option ℤ)
    (gicName : ℤ → Option String) (mktcap : ℕ → String → Option ℚ)
    (r : RawJoinedRow) (hic : r.fs_industry_code = none) :
    enrichRow gicCode gicName mktcap r = none := by
  unfold enrichRow
  rw [hic]

lemma enrichRow_none_of_value_none (gicCode : ℤ → Option ℤ)
    (gicName : ℤ → Option String) (mktcap : ℕ → String → Option ℚ)
    (r : RawJoinedRow) (hv : r.value = none) :
    enrichRow gicCode gicName mktcap r = none := by
  unfold enrichRow
  rw [hv]
  cases r.fs_industry_code <;> rfl

lemma enrichRow_none_of_unmapped (gicCode : ℤ → Option ℤ)
    (gicName : ℤ → Option String) (mktcap : ℕ → String → Option ℚ)
    (r : RawJoinedRow) (code : ℤ) (hic : r.fs_industry_code = some code)
    (hg : gicCode code = none) :
    enrichRow gicCode gicName mktcap r = none := by
  unfold enrichRow
  rw [hic]
  cases r.value with
  | none => rfl
  | some v =>
    dsimp only
    rw [hg]

lemma enrichRow_none_of_unnamed (gicCode : ℤ → Option ℤ)
    (gicName : ℤ → Option String) (mktcap : ℕ → String → Option ℚ)
    (r : RawJoinedRow) (code sc : ℤ) (hic : r.fs_industry_code = some code)
    (hg : gicCode code = some sc) (hn : gicName sc = none) :
    enrichRow gicCode gicName mktcap r = none := by
  unfold enrichRow
  rw [hic]
  cases r.value with
  | none => rfl
  | some v =>
    dsimp only
    rw [hg]
    dsimp only
    rw [hn]

/-- C9 (amended): rows lacking a required join key (`value` or
`fs_industry_code`) or a sector mapping are excluded from downstream
aggregation by the dropna/mapping chain; rows lacking a market
capitalization are NOT excluded — they survive enrichment labeled Small
Cap — but they contribute nothing to any weighted numerator or
denominator sum.  (The code emits no drop count for these exclusions.) -/
theorem enrichment_exclusions (gicCode : ℤ → Option ℤ)
    (gicName : ℤ → Option String) (mktcap : ℕ → String → Option ℚ)
    (r : RawJoinedRow) (e : EnrichedRow) (x : AggRow) (l : List AggRow) :
    (r.fs_industry_code = none → enrichRow gicCode gicName mktcap r = none) ∧
    (r.value = none → enrichRow gicCode gicName mktcap r = none) ∧
    (∀ code, r.fs_industry_code = some code → gicCode code = none →
      enrichRow gicCode gicName mktcap r = none) ∧
    (∀ code sc, r.fs_industry_code = some code → gicCode code = some sc →
      gicName sc = none → enrichRow gicCode gicName mktcap r = none) ∧
    (enrichRow gicCode gicName mktcap r = some e → e.market_cap = none →
      e.size_category = "Small Cap") ∧
    (x.market_cap = none → sumNum (x :: l) = sumNum l ∧
      sumCap (x :: l) = sumCap l) := by
  refine ⟨enrichRow_none_of_code_none gicCode gicName mktcap r,
    enrichRow_none_of_value_none gicCode gicName mktcap r,
    fun code hic hg => enrichRow_none_of_unmapped gicCode gicName mktcap r code hic hg,
    fun code sc hic hg hn =>
      enrichRow_none_of_unnamed gicCode gicName mktcap r code sc hic hg hn,
    ?_, ?_⟩
  · intro he hmc
    rcases hic : r.fs_industry_code with - | code
    · rw [enrichRow_none_of_code_none gicCode gicName mktcap r hic] at he
      simp at he
    rcases hv : r.value with - | v
    · rw [enrichRow_none_of_value_none gicCode gicName mktcap r hv] at he
      simp at he
    rcases hg : gicCode code with - | sc
    · rw [enrichRow_none_of_unmapped gicCode gicName mktcap r code hic hg] at he
      simp at he
    rcases hn : gicName sc with - | name
    · rw [enrichRow_none_of_unnamed gicCode gicName mktcap r code sc hic hg hn] at he
      simp at he
    rw [enrichRow_eq gicCode gicName mktcap r code sc v name hic hv hg hn] at he
    have hrec := Option.some.inj he
    subst hrec
    simp only at hmc ⊢
    rw [hmc] at *
    rfl
  · intro hmc
    constructor
    · show ((x :: l).filterMap weighted_value_num).sum = _
      rw [List.filterMap_cons]
      have hw : weighted_value_num x = none := by
        rw [weighted_value_num, hmc]; rfl
      rw [hw]
      rfl
    · show ((x :: l).filterMap (fun r => r.market_cap)).sum = _
      rw [List.filterMap_cons]
      simp only [hmc]
      rfl

/-- Static-map samples for the enrichment witnesses: industry code 10 maps
to sector code 45, which is named Information Technology; the market-cap
series is empty. -/
def sampleGicCode : ℤ → Option ℤ :=
  fun code => if code = 10 then some 45 else none

/-- Sector-code-to-name sample map. -/
def sampleGicName : ℤ → Option String :=
  fun sc => if sc = 45 then some "Information Technology" else none

/-- Market-cap series with no data (every lookup misses). -/
def sampleMktcapNone : ℕ → String → Option ℚ :=
  fun _ _ => none

/-- Raw row with industry code and value present. -/
def jrow0 : RawJoinedRow :=
  { teo := 7, ticker := "XYZ", expiry_label := "60", value_type := "atmCen",
    value := some 2, fs_industry_code := some 10 }

/-- Raw row lacking the industry code. -/
def rowNoCode : RawJoinedRow :=
  { teo := 7, ticker := "XYZ", expiry_label := "60", value_type := "atmCen",
    value := some 2, fs_industry_code := none }

/-- What the enricher makes of `jrow0` when the market cap is missing. -/
def enrichedNoCap : EnrichedRow :=
  { teo := 7, ticker := "XYZ", expiry_label := "60", value_type := "atmCen",
    value := 2, gics_sector := "Information Technology", market_cap := none,
    size_category := "Small Cap" }

/-- C9 counterexample: a row whose (date, ticker) has no market
capitalization is NOT excluded from downstream aggregation — it survives
enrichment (labeled Small Cap) and enters the aggregation input. -/
theorem missing_mktcap_row_not_excluded :
    enrich sampleGicCode sampleGicName sampleMktcapNone [jrow0] =
      [enrichedNoCap] ∧
    enrichedNoCap.market_cap = none :=
  ⟨rfl, rfl⟩

/-- Witness for `enrichment_exclusions`: a row lacking its industry code
is dropped, and a missing-market-cap aggregation row adds nothing to
either group sum. -/
theorem enrichment_exclusions_witness :
    rowNoCode.fs_industry_code = none ∧
    zeroCapRow.market_cap = none ∧
    enrichRow sampleGicCode sampleGicName sampleMktcapNone rowNoCode = none ∧
    sumNum [zeroCapRow] = sumNum [] ∧ sumCap [zeroCapRow] = sumCap [] := by
  have h := enrichment_exclusions sampleGicCode sampleGicName sampleMktcapNone
    rowNoCode enrichedNoCap zeroCapRow []
  exact ⟨rfl, rfl, h.1 rfl, (h.2.2.2.2.2 rfl).1, (h.2.2.2.2.2 rfl).2⟩

/-- C10: when the market capitalization for a record's (date, ticker) is
missing after the left join, both threshold comparisons are False (the
pandas `NaN >= t` semantics), so `classify_size` returns Small Cap and the
record proceeds into the aggregation group keys instead of being removed
at classification time. -/
theorem missing_mktcap_classified_small (gicCode : ℤ → Option ℤ)
    (gicName : ℤ → Option String) (mktcap : ℕ → String → Option ℚ)
    (rows : List RawJoinedRow) (r : RawJoinedRow) (code sc : ℤ) (v : ℚ)
    (name : String) (hr : r ∈ rows) (hic : r.fs_industry_code = some code)
    (hv : r.value = some v) (hg : gicCode code = some sc)
    (hn : gicName sc = some name) (hmc : mktcap r.teo r.ticker = none) :
    optGE none (10 * 10 ^ 9) = false ∧
    optGE none (2 * 10 ^ 9) = false ∧
    classify_size none = "Small Cap" ∧
    ({ teo := r.teo, ticker := r.ticker, expiry_label := r.expiry_label,
       value_type := r.value_type, value := v, gics_sector := name,
       market_cap := none, size_category := "Small Cap" } : EnrichedRow) ∈
      enrich gicCode gicName mktcap rows := by
  refine ⟨rfl, rfl, rfl, ?_⟩
  rw [enrich, List.mem_filterMap]
  refine ⟨r, hr, ?_⟩
  rw [enrichRow_eq gicCode gicName mktcap r code sc v name hic hv hg hn, hmc]
  rfl

/-- Witness for `missing_mktcap_classified_small` on `jrow0` with the
sample maps and an empty market-cap series. -/
theorem missing_mktcap_classified_small_witness :
    jrow0 ∈ [jrow0] ∧ jrow0.fs_industry_code = some 10 ∧
    jrow0.value = some 2 ∧ sampleGicCode 10 = some 45 ∧
    sampleGicName 45 = some "Information Technology" ∧
    sampleMktcapNone jrow0.teo jrow0.ticker = none ∧
    (optGE none (10 * 10 ^ 9) = false ∧
     optGE none (2 * 10 ^ 9) = false ∧
     classify_size none = "Small Cap" ∧
     ({ teo := jrow0.teo, ticker := jrow0.ticker,
        expiry_label := jrow0.expiry_label, value_type := jrow0.value_type,
        value := 2, gics_sector := "Information Technology",
        market_cap := none, size_category := "Small Cap" } : EnrichedRow) ∈
       enrich sampleGicCode sampleGicName sampleMktcapNone [jrow0]) :=
  ⟨List.mem_singleton.mpr rfl, rfl, rfl, rfl, rfl, rfl,
   missing_mktcap_classified_small sampleGicCode sampleGicName sampleMktcapNone
     [jrow0] jrow0 10 45 2 "Information Technology"
     (List.mem_singleton.mpr rfl) rfl rfl rfl rfl rfl⟩
